import Mathlib

/-!
# Verification of the kustomization patch merge engine (`src/merge.py`)

A shallow embedding of the merge engine of `src/merge.py`: the mapping
codec (`parse_existing_mappings`, `build_patch_text`), the patch locator
and merge orchestration (`update_patch`), and — modelled from the
specification, since no variant of it appears under `src/` — the
exclusive merge policy.  Python strings are modelled as Lean `String`
(a packed `List Char`), Python dicts over string keys as insertion-ordered
association lists with Python's update-in-place/append semantics.
-/

namespace Transit

/-! ## Python string primitives

Each helper models the exact Python `str` operation used by `src/merge.py`,
over the `List Char` contents of a `String`. -/

/-- Python whitespace, as stripped by `str.strip` / `lstrip` / `rstrip`
with no argument. -/
def pyWs (c : Char) : Bool :=
  c == ' ' || c == '\t' || c == '\n' || c == '\r' || c == '\x0b' || c == '\x0c'

/-- `str.lstrip()`. -/
def pyLstrip (s : String) : String :=
  ⟨s.data.dropWhile pyWs⟩

/-- `str.rstrip()`. -/
def pyRstrip (s : String) : String :=
  ⟨((s.data.reverse.dropWhile pyWs)).reverse⟩

/-- `str.strip()`. -/
def pyStrip (s : String) : String :=
  ⟨(((s.data.dropWhile pyWs).reverse.dropWhile pyWs)).reverse⟩

/-- Split a character list at every newline; never returns `[]`.
(The fragments handled by the tool use `\x0a` as their only line break.) -/
def splitNl : List Char → List (List Char)
  | [] => [[]]
  | c :: cs =>
    if c == '\n' then [] :: splitNl cs
    else
      match splitNl cs with
      | [] => [[c]]
      | h :: t => (c :: h) :: t

/-- `str.splitlines()`: newline-separated pieces, with the piece after a
terminating final newline dropped (`"a\x0a".splitlines() == ["a"]`,
`"".splitlines() == []`). -/
def pySplitlines (s : String) : List String :=
  let parts := splitNl s.data
  (if parts.getLast? == some [] then parts.dropLast else parts).map
    (fun l => ⟨l⟩)

/-- `"\x0a".join(lines)`. -/
def pyJoinNl (lines : List String) : String :=
  String.intercalate "\n" lines

/-- Does the string contain a colon (`":" in s`)? -/
def hasColon (s : String) : Bool :=
  s.data.any (fun c => c == ':')

/-- `s.split(":", 1)` when a colon is present: the part before the first
colon and everything after it.  When no colon is present, returns
`(s, "")` (the callers in `parse_existing_mappings` only split after
checking `":" in s`). -/
def splitColon1 (s : String) : String × String :=
  (⟨s.data.takeWhile (fun c => c != ':')⟩,
   ⟨(s.data.dropWhile (fun c => c != ':')).tail⟩)

/-- Does the (possibly empty) string start with an ASCII decimal digit
(`s.startswith(("0",...,"9"))`)? -/
def firstIsDigit (s : String) : Bool :=
  match s.data with
  | [] => false
  | c :: _ => c.isDigit

/-- `str.isdigit()` for the ASCII strings this tool handles: non-empty and
all decimal digits. -/
def pyIsDigit (s : String) : Bool :=
  !s.data.isEmpty && s.data.all (fun c => c.isDigit)

/-- Substring containment, `needle in hay` on Python strings. -/
def containsSub (needle : List Char) : List Char → Bool
  | [] => needle.isEmpty
  | c :: t => needle.isPrefixOf (c :: t) || containsSub needle t

/-- `needle in hay` lifted to `String`. -/
def pyIn (needle hay : String) : Bool :=
  containsSub needle.data hay.data

/-- Number of positions of `hay` at which `needle` occurs.  For the
needles used here (never self-overlapping) this agrees with Python's
`hay.count(needle)`. -/
def countSub (needle : List Char) : List Char → Nat
  | [] => if needle.isEmpty then 1 else 0
  | c :: t => (if needle.isPrefixOf (c :: t) then 1 else 0) + countSub needle t

/-- Value of a list of decimal digit characters. -/
def digitsToNat (l : List Char) : Nat :=
  l.foldl (fun n c => n * 10 + (c.toNat - '0'.toNat)) 0

/-- Python `int(s)` on the key strings this tool produces: all-digit
strings, or a leading `-` followed by digits (from `str(int)`).
Other shapes never reach the sort key in the source. -/
def pyInt (s : String) : Int :=
  match s.data with
  | '-' :: rest => - (digitsToNat rest : Int)
  | l => (digitsToNat l : Int)

/-! ## Python dicts with string keys

Insertion-ordered association lists.  `d[k] = v` overwrites in place when
the key exists and appends otherwise; `d.update(other)` assigns each of
`other`'s items in order. -/

/-- A decoded port mapping (Python `Dict[str, str]`). -/
abbrev Mapping := List (String × String)

/-- Python `m[k] = v`. -/
def dictInsert (m : Mapping) (k v : String) : Mapping :=
  if m.any (fun q => q.1 == k) then
    m.map (fun q => if q.1 == k then (k, v) else q)
  else m ++ [(k, v)]

/-- Python `m.update(new)`. -/
def dictUpdate (m new : Mapping) : Mapping :=
  new.foldl (fun acc q => dictInsert acc q.1 q.2) m

/-! ## MappingCodec: `parse_existing_mappings` (src/merge.py lines 44-65) -/

/-- One captured body line of `parse_existing_mappings`: discard the text
before the first colon, split the remainder at its first colon when one is
present, strip both parts, and keep the pair only when the key is all
digits (`src/merge.py` lines 56-64, including the discarded first
segment of `line.split(":", 1)`). -/
def parseLine (current : Mapping) (line : String) : Mapping :=
  let r := (splitColon1 line).2
  let kv := if hasColon r then splitColon1 r else (pyStrip r, "")
  let key := pyStrip kv.1
  let value := pyStrip kv.2
  if pyIsDigit key then dictInsert current key value else current

/-- The line loop of `parse_existing_mappings` (src/merge.py lines 50-64):
`value: |` turns capturing on; once capturing, lines that contain a colon
and whose stripped form starts with a digit are fed to `parseLine`. -/
def parseLoop : Bool → Mapping → List String → Mapping
  | _, current, [] => current
  | in_value_block, current, line :: rest =>
    let stripped := pyRstrip line
    if pyStrip stripped == "value: |" then
      parseLoop true current rest
    else if in_value_block && hasColon stripped &&
        firstIsDigit (pyLstrip stripped) then
      parseLoop in_value_block (parseLine current line) rest
    else
      parseLoop in_value_block current rest

/-- `parse_existing_mappings(patch_content, target_path)`
(src/merge.py lines 44-65).  The `target_path` parameter is accepted and,
as in the source, never used. -/
def parse_existing_mappings (patch_content : String) (target_path : String) :
    Mapping :=
  parseLoop false [] (pySplitlines patch_content)

/-! ## MappingCodec: `build_patch_text` (src/merge.py lines 68-81) -/

/-- One encoded body line, `f"    \x7bk\x7d: \x7bmappings[k]\x7d"`. -/
def fmtLine (q : String × String) : String :=
  "    " ++ q.1 ++ ": " ++ q.2

/-- Insert a pair into a list already sorted by `pyInt` of the key,
after every pair with a smaller-or-equal key (the stable position Python's
`sorted` gives an element). -/
def insertByKey (x : String × String) : Mapping → Mapping
  | [] => [x]
  | y :: ys => if pyInt x.1 < pyInt y.1 then x :: y :: ys
               else y :: insertByKey x ys

/-- Python `sorted(mappings.keys(), key=int)` applied to the pair list:
a stable sort by the integer value of the key. -/
def sortByIntKey (m : Mapping) : Mapping :=
  m.foldl (fun acc x => insertByKey x acc) []

/-- `build_patch_text(path, mappings)` (src/merge.py lines 68-81): the
`- op: add` / `path:` / `value: |` header, one 4-space-indented line per
pair in ascending numeric key order, and the `\x7b\x7d` placeholder line
when the mapping is empty. -/
def build_patch_text (path : String) (mappings : Mapping) : String :=
  pyJoinNl
    (["- op: add", "  path: " ++ path, "  value: |"]
      ++ (sortByIntKey mappings).map fmtLine
      ++ (if mappings.isEmpty then ["    \x7b\x7d"] else []))

/-! ## Documents and the patch locator (src/merge.py lines 112-123) -/

/-- An element of the document's `patches` list: a YAML mapping with
stringified field values, or any non-mapping item. -/
inductive PatchEntry where
  | mapping (fields : List (String × String))
  | other
deriving DecidableEq

/-- `str(item["patch"])` when `isinstance(item, dict) and "patch" in item`,
otherwise `none`. -/
def entryContent : PatchEntry → Option String
  | .mapping fields => fields.lookup "patch"
  | .other => none

/-- The content test of the locator (src/merge.py line 120):
`f"path: \x7btarget_path\x7d" in content and "- op: add" in content`. -/
def contentMatch (c : String) (target_path : String) : Bool :=
  pyIn ("path: " ++ target_path) c && pyIn "- op: add" c

/-- Whether the locator selects this entry. -/
def entryMatch (target_path : String) (e : PatchEntry) : Bool :=
  match entryContent e with
  | some c => contentMatch c target_path
  | none => false

/-- The locator loop (src/merge.py lines 113-123): index and fragment text
of the first entry that is a dict containing `patch` whose text passes
`contentMatch`. -/
def findPatch (target_path : String) : List PatchEntry → Option (Nat × String)
  | [] => none
  | e :: rest =>
    match entryContent e with
    | some c =>
      if contentMatch c target_path then some (0, c)
      else (findPatch target_path rest).map (fun ic => (ic.1 + 1, ic.2))
    | none => (findPatch target_path rest).map (fun ic => (ic.1 + 1, ic.2))

/-! ## `update_patch` (src/merge.py lines 84-150)

The CLI guarantees the arity of the family-specific arguments, so the
family and its arguments are bundled in one type.  `main_key` and the
optional second pair are `int`s, stringified with `str`. -/

/-- The patch family together with its value arguments: `tcp` carries
`namespace service container_port`, `nodeport` carries `container_port`
(CLI `extra_args` are strings). -/
inductive FamilyArgs where
  | tcp (ns svc cp : String)
  | nodeport (cp : String)
deriving DecidableEq

/-- `PATCH_TYPES[...]["path"]` (src/merge.py lines 25 and 33). -/
def famPath : FamilyArgs → String
  | .tcp _ _ _ => "/spec/values/tcp"
  | .nodeport _ => "/spec/values/controller/service/nodePorts/tcp"

/-- `value_factory` applied to the main arguments
(src/merge.py lines 28, 36, 98-103). -/
def mainValue : FamilyArgs → String
  | .tcp ns svc cp => ns ++ "/" ++ svc ++ ":" ++ cp
  | .nodeport cp => cp

/-- `value_factory` applied to the second pair's port, an `int`
(src/merge.py lines 105-110). -/
def secondValue (fa : FamilyArgs) (v2 : Int) : String :=
  match fa with
  | .tcp ns svc _ => ns ++ "/" ++ svc ++ ":" ++ toString v2
  | .nodeport _ => toString v2

/-- The `new_mappings` dict built in src/merge.py lines 96-110. -/
def newMappings (fa : FamilyArgs) (main_key : Int)
    (second_pair : Option (Int × Int)) : Mapping :=
  let new1 : Mapping := [(toString main_key, mainValue fa)]
  match second_pair with
  | none => new1
  | some (k2, v2) => dictInsert new1 (toString k2) (secondValue fa v2)

/-- `update_patch(data, patch_type, main_key, main_args, second_pair)`
(src/merge.py lines 84-150), acting on the document's `patches` list:
locate the first matching entry, decode its current mapping (empty when
absent), apply `current.update(new)`, re-encode, and replace the entry in
place or append a fresh one.  No other key of the document is touched. -/
def update_patch (doc : List PatchEntry) (fa : FamilyArgs) (main_key : Int)
    (second_pair : Option (Int × Int)) : List PatchEntry :=
  let target_path := famPath fa
  let new_mappings := newMappings fa main_key second_pair
  match findPatch target_path doc with
  | some ic =>
    doc.set ic.1 (.mapping [("patch",
      build_patch_text target_path
        (dictUpdate (parse_existing_mappings ic.2 target_path)
          new_mappings))])
  | none =>
    doc ++ [.mapping [("patch",
      build_patch_text target_path (dictUpdate [] new_mappings))]]

/-- The nodeport family's JSON-pointer target path (src/merge.py line 33). -/
def nodeportPath : String := "/spec/values/controller/service/nodePorts/tcp"

/-! ## The exclusive merge policy

`src/merge.py` applies only the merge-update policy
(`current_mappings.update(new_mappings)`, line 131); no exclusive variant
exists under `src/`.  The definitions below model it from the
specification so the exclusive-policy claims can be settled. -/

/-- The conflict failure of the exclusive policy: the colliding keys, each
with its existing value. -/
structure ConflictError where
  conflicts : List (String × String)
deriving DecidableEq

/-- Modelled from the spec: the `exclusive` merge policy (§4.3), absent
from `src/merge.py`.  It computes the intersection of new-pair keys and
current-pair keys; if non-empty it fails with a `ConflictError` naming
each colliding key and its existing value; on empty intersection it
behaves like merge-update. -/
def mergeExclusive (current new : Mapping) : Except ConflictError Mapping :=
  let collisions := current.filter (fun q => (new.lookup q.1).isSome)
  if collisions.isEmpty then .ok (dictUpdate current new)
  else .error ⟨collisions⟩

/-- Modelled from the spec: the §4.4 Merge orchestration under the
exclusive policy, absent from `src/merge.py` (whose `update_patch`
hard-codes merge-update).  Locate the managed entry with the source
locator, decode its mapping with the source decoder (empty when absent),
apply the exclusive policy, and on success re-encode in place or append;
on conflict the failure propagates and no document is produced. -/
def mergeDocExclusive (doc : List PatchEntry) (target_path : String)
    (new : Mapping) : Except ConflictError (List PatchEntry) :=
  match findPatch target_path doc with
  | some ic =>
    match mergeExclusive (parse_existing_mappings ic.2 target_path) new with
    | .ok merged =>
      .ok (doc.set ic.1 (.mapping [("patch",
        build_patch_text target_path merged)]))
    | .error e => .error e
  | none =>
    match mergeExclusive [] new with
    | .ok merged =>
      .ok (doc ++ [.mapping [("patch",
        build_patch_text target_path merged)]])
    | .error e => .error e

/-! ## The locator condition as the specification words it (§4.2) -/

/-- The PatchLocator matching condition exactly as the specification
states it, for comparison with the source locator `findPatch`: the entry
is a mapping with exactly the single key `patch`, its fragment text
contains exactly one `op: add` occurrence, and some line of the fragment
strips to `path: <targetPath>`. -/
def specLocatorMatch (target_path : String) (e : PatchEntry) : Bool :=
  match e with
  | .mapping fields =>
    (fields.map Prod.fst == ["patch"]) &&
      (match fields.lookup "patch" with
       | some c =>
         (countSub "op: add".data c.data == 1) &&
           (pySplitlines c).any (fun l => pyStrip l == "path: " ++ target_path)
       | none => false)
  | .other => false

/-! ## Helper lemmas about the stable sort of `build_patch_text` -/

theorem insertByKey_perm (x : String × String) (l : Mapping) :
    List.Perm (insertByKey x l) (x :: l) := by
  induction l with
  | nil => simp [insertByKey]
  | cons y ys ih =>
    by_cases h : pyInt x.1 < pyInt y.1
    · simp [insertByKey, h]
    · simp only [insertByKey, if_neg h]
      exact (ih.cons y).trans (List.Perm.swap x y ys)

theorem mem_insertByKey (a x : String × String) (l : Mapping) :
    a ∈ insertByKey x l ↔ a = x ∨ a ∈ l := by
  rw [(insertByKey_perm x l).mem_iff, List.mem_cons]

theorem insertByKey_pairwise (x : String × String) (l : Mapping)
    (h : l.Pairwise (fun a b => pyInt a.1 ≤ pyInt b.1)) :
    (insertByKey x l).Pairwise (fun a b => pyInt a.1 ≤ pyInt b.1) := by
  induction l with
  | nil => simp [insertByKey]
  | cons y ys ih =>
    rcases List.pairwise_cons.mp h with ⟨hy, hys⟩
    by_cases hlt : pyInt x.1 < pyInt y.1
    · simp only [insertByKey, if_pos hlt]
      refine List.pairwise_cons.mpr ⟨?_, h⟩
      intro b hb
      rcases List.mem_cons.mp hb with rfl | hb2
      · exact le_of_lt hlt
      · exact le_trans (le_of_lt hlt) (hy b hb2)
    · simp only [insertByKey, if_neg hlt]
      refine List.pairwise_cons.mpr ⟨?_, ih hys⟩
      intro b hb
      rcases (mem_insertByKey b x ys).mp hb with rfl | hb2
      · exact not_lt.mp hlt
      · exact hy b hb2

theorem sortByIntKey_pairwise_aux (l acc : Mapping)
    (h : acc.Pairwise (fun a b => pyInt a.1 ≤ pyInt b.1)) :
    (l.foldl (fun a x => insertByKey x a) acc).Pairwise
      (fun a b => pyInt a.1 ≤ pyInt b.1) := by
  induction l generalizing acc with
  | nil => exact h
  | cons x xs ih => exact ih (insertByKey x acc) (insertByKey_pairwise x acc h)

theorem sortByIntKey_pairwise (m : Mapping) :
    (sortByIntKey m).Pairwise (fun a b => pyInt a.1 ≤ pyInt b.1) :=
  sortByIntKey_pairwise_aux m [] (List.Pairwise.nil)

theorem sortByIntKey_perm_aux (l acc : Mapping) :
    List.Perm (l.foldl (fun a x => insertByKey x a) acc) (acc ++ l) := by
  induction l generalizing acc with
  | nil => simp
  | cons x xs ih =>
    have h1 : List.Perm (xs.foldl (fun a x => insertByKey x a) (insertByKey x acc))
        ((insertByKey x acc) ++ xs) := ih (insertByKey x acc)
    have h2 : List.Perm ((insertByKey x acc) ++ xs) ((x :: acc) ++ xs) :=
      (insertByKey_perm x acc).append_right xs
    have h3 : List.Perm (acc ++ x :: xs) (x :: (acc ++ xs)) := List.perm_middle
    exact (h1.trans h2).trans h3.symm

theorem sortByIntKey_perm (m : Mapping) : List.Perm (sortByIntKey m) m := by
  simpa using sortByIntKey_perm_aux m []

/-! ## Claim theorems -/

/-- C8 (amended): the encoded body lines are one per pair, in ascending
(non-decreasing) order of the keys parsed as integers — strictly
ascending whenever the keys' integer values are pairwise distinct — each
formatted by `fmtLine` with a fixed 4-space indent, with a single
placeholder body line for the empty mapping. -/
theorem build_patch_text_canonical_order (path : String) (m : Mapping) :
    (sortByIntKey m).Pairwise (fun a b => pyInt a.1 ≤ pyInt b.1) ∧
    List.Perm (sortByIntKey m) m ∧
    ((m.map (fun q => pyInt q.1)).Nodup →
      (sortByIntKey m).Pairwise (fun a b => pyInt a.1 < pyInt b.1)) ∧
    build_patch_text path m =
      pyJoinNl (["- op: add", "  path: " ++ path, "  value: |"]
        ++ (sortByIntKey m).map fmtLine
        ++ (if m.isEmpty then ["    \x7b\x7d"] else [])) := by
  refine ⟨sortByIntKey_pairwise m, sortByIntKey_perm m, ?_, rfl⟩
  intro hnd
  have hperm : List.Perm ((sortByIntKey m).map (fun q => pyInt q.1))
      (m.map (fun q => pyInt q.1)) := (sortByIntKey_perm m).map _
  have hnd2 : ((sortByIntKey m).map (fun q => pyInt q.1)).Nodup :=
    hperm.nodup_iff.mpr hnd
  have hne : (sortByIntKey m).Pairwise (fun a b => pyInt a.1 ≠ pyInt b.1) :=
    List.pairwise_map.mp hnd2
  exact ((sortByIntKey_pairwise m).and hne).imp
    (fun h => lt_of_le_of_ne h.1 h.2)

/-- Witness for the amended C8 theorem at a concrete two-pair mapping. -/
theorem build_patch_text_canonical_order_witness :
    (([("2", "b"), ("1", "a")] : Mapping).map (fun q => pyInt q.1)).Nodup ∧
    (sortByIntKey [("2", "b"), ("1", "a")]).Pairwise
      (fun a b => pyInt a.1 < pyInt b.1) :=
  ⟨by decide,
   (build_patch_text_canonical_order "/p" [("2", "b"), ("1", "a")]).2.2.1
     (by decide)⟩

/-- C8 as stated fails: with keys `07` and `7`, whose integer values tie,
the encoded body lines are not strictly ascending by numeric key. -/
theorem build_patch_text_strict_order_cex :
    build_patch_text "/p" [("07", "a"), ("7", "b")] =
      "- op: add\n  path: /p\n  value: |\n    07: a\n    7: b" ∧
    ¬ (sortByIntKey [("07", "a"), ("7", "b")]).Pairwise
        (fun a b => pyInt a.1 < pyInt b.1) := by
  exact ⟨rfl, by decide⟩

/-- C10: `parse_existing_mappings` never reads its `target_path` argument,
so the decoded mapping is independent of the target path. -/
theorem parse_existing_mappings_path_irrelevant (c p1 p2 : String) :
    parse_existing_mappings c p1 = parse_existing_mappings c p2 := rfl

/-- C2 fails on the code (code bug): the decoder discards the segment
before the first colon — the key — so decoding the encoding of
`\x7b"30085": "8080"\x7d` yields `\x7b"8080": ""\x7d`, not the original
mapping, although the value `8080` is free of colon-digit ambiguity. -/
theorem decode_encode_roundtrip_fails :
    parse_existing_mappings (build_patch_text "/x" [("30085", "8080")]) "/x"
        = [("8080", "")] ∧
    ([("8080", "")] : Mapping) ≠ [("30085", "8080")] :=
  ⟨rfl, by decide⟩

/-- C6 fails on the code (code bug): on the captured body line
`    30085: 8080` the decoder takes the segment between the first and
second colons as the key (here the value `8080`) and yields
`\x7b"8080": ""\x7d`, instead of key `30085` with value `8080` as its own
docstring describes. -/
theorem parse_key_extraction_bug :
    parse_existing_mappings
        "- op: add\n  path: /x\n  value: |\n    30085: 8080" "/x"
        = [("8080", "")] ∧
    ([("8080", "")] : Mapping) ≠ [("30085", "8080")] :=
  ⟨rfl, by decide⟩

/-- C7 fails on the code (code bug): merging the nodeport pair
`30085 → 9090` twice into an initially empty document is not idempotent —
the second merge re-decodes the first merge's body line with the
key-discarding decoder and picks up a stray pair `9090 → ""`. -/
theorem merge_update_not_idempotent :
    update_patch (update_patch [] (.nodeport "9090") 30085 none)
        (.nodeport "9090") 30085 none ≠
      update_patch [] (.nodeport "9090") 30085 none := by
  decide

/-- C9 as stated fails: a `value:` line without the literal-block
indicator is not accepted as the body-start marker — with it the same
body line is captured, without it nothing is. -/
theorem value_marker_requires_pipe_cex :
    parse_existing_mappings "value:\n    1: 2" "/p" = [] ∧
    parse_existing_mappings "value: |\n    1: 2" "/p" = [("2", "")] :=
  ⟨rfl, rfl⟩

/-- C4 as stated fails: an entry carrying a `target` selector key next to
its `patch` key is still matched by the locator and is replaced (its
`target` key dropped), so it is not preserved by the merge call. -/
theorem target_entry_rewritten_cex :
    PatchEntry.mapping
        [("patch", "- op: add\n  path: /spec/values/tcp\n  value: |\n    \x7b\x7d"),
         ("target", "kind: Deployment")] ∉
      update_patch
        [.mapping
          [("patch", "- op: add\n  path: /spec/values/tcp\n  value: |\n    \x7b\x7d"),
           ("target", "kind: Deployment")]]
        (.tcp "prod" "svc" "8080") 33107 none := by
  decide

/-- C5 as stated fails: the locator selects an entry that carries a
`target` selector key in addition to `patch`, which the specification's
matching condition excludes. -/
theorem locator_selects_target_entry_cex :
    findPatch "/spec/values/tcp"
        [.mapping
          [("patch", "- op: add\n  path: /spec/values/tcp\n  value: |\n    \x7b\x7d"),
           ("target", "kind: Service")]] =
      some (0, "- op: add\n  path: /spec/values/tcp\n  value: |\n    \x7b\x7d") ∧
    specLocatorMatch "/spec/values/tcp"
        (.mapping
          [("patch", "- op: add\n  path: /spec/values/tcp\n  value: |\n    \x7b\x7d"),
           ("target", "kind: Service")]) = false :=
  ⟨rfl, rfl⟩

/-- C3: on a document whose tcp entry holds the single pair
`33107: prod/svc:31010`, the merge-update merge of `33107 → prod/svc:9999`
replaces the entry in place with a body that is exactly the single line
`    33107: prod/svc:9999`. -/
theorem tcp_overwrite_scenario_b :
    update_patch
        [.other,
         .mapping [("patch",
           "- op: add\n  path: /spec/values/tcp\n  value: |\n    33107: prod/svc:31010")]]
        (.tcp "prod" "svc" "9999") 33107 none =
      [.other,
       .mapping [("patch",
         "- op: add\n  path: /spec/values/tcp\n  value: |\n    33107: prod/svc:9999")]] := by
  decide

/-! ## The frame property of `update_patch` -/

theorem findPatch_lt_length (p : String) (doc : List PatchEntry)
    (ic : Nat × String) (h : findPatch p doc = some ic) :
    ic.1 < doc.length := by
  induction doc generalizing ic with
  | nil => simp [findPatch] at h
  | cons e rest ih =>
    rw [findPatch] at h
    cases hec : entryContent e with
    | some c =>
      simp only [hec] at h
      by_cases hm : contentMatch c p
      · rw [if_pos hm] at h
        cases h
        simp
      · rw [if_neg hm] at h
        rcases Option.map_eq_some'.mp h with ⟨ic', hic', rfl⟩
        have := ih ic' hic'
        simp only [List.length_cons]
        omega
    | none =>
      simp only [hec] at h
      rcases Option.map_eq_some'.mp h with ⟨ic', hic', rfl⟩
      have := ih ic' hic'
      simp only [List.length_cons]
      omega

/-- C4 (amended): every position of the patch list other than the one the
locator selects — the first entry that is a mapping containing the key
`patch` whose text contains `path: <targetPath>` and `- op: add` as
substrings — is unchanged by `update_patch`; in particular entries
carrying a `target` selector or several `op:` occurrences are preserved
exactly when they are not that first matching entry. -/
theorem update_patch_frame (doc : List PatchEntry) (fa : FamilyArgs)
    (main_key : Int) (second_pair : Option (Int × Int)) (j : Nat)
    (hj : j < doc.length)
    (hne : some j ≠ (findPatch (famPath fa) doc).map (fun ic => ic.1)) :
    (update_patch doc fa main_key second_pair)[j]? = doc[j]? := by
  simp only [update_patch]
  cases hfp : findPatch (famPath fa) doc with
  | none =>
    exact List.getElem?_append_left hj
  | some ic =>
    have hj_ne : ic.1 ≠ j := by
      intro heq
      apply hne
      rw [hfp, Option.map_some', heq]
    exact List.getElem?_set_ne hj_ne

/-- Witness for the amended C4 theorem: the unmanaged first entry of the
Scenario-B document is untouched by the merge call. -/
theorem update_patch_frame_witness :
    (update_patch
        [.other,
         .mapping [("patch",
           "- op: add\n  path: /spec/values/tcp\n  value: |\n    33107: prod/svc:31010")]]
        (.tcp "prod" "svc" "9999") 33107 none)[0]? =
      ([.other,
        .mapping [("patch",
          "- op: add\n  path: /spec/values/tcp\n  value: |\n    33107: prod/svc:31010")]]
        : List PatchEntry)[0]? :=
  update_patch_frame _ _ _ _ 0 (by decide) (by decide)

/-! ## Characterization of the locator -/

theorem findPatch_shift_iff (p : String) (rest : List PatchEntry)
    (i : Nat) (c : String) :
    (findPatch p rest).map (fun ic => (ic.1 + 1, ic.2)) = some (i, c) ↔
      ∃ k, i = k + 1 ∧ findPatch p rest = some (k, c) := by
  cases hr : findPatch p rest with
  | none => simp
  | some ic =>
    simp only [Option.map_some', Option.some_inj]
    constructor
    · intro h
      refine ⟨ic.1, ?_, ?_⟩
      · exact (congrArg Prod.fst h).symm
      · have hc : ic.2 = c := congrArg Prod.snd h
        rw [← hc]
    · rintro ⟨k, rfl, hk⟩
      have hik : ic = (k, c) := by simpa using hk
      simp [hik]

theorem entryMatch_false_of_content (p : String) (e : PatchEntry)
    (c : String) (hec : entryContent e = some c)
    (hm : contentMatch c p = false) : entryMatch p e = false := by
  simp [entryMatch, hec, hm]

/-- C5 (amended): the source locator selects position `i` with fragment
text `c` iff the entry at `i` is a mapping containing the key `patch`
(other keys such as `target` permitted) whose fragment text `c` contains
`path: <targetPath>` and `- op: add` as substrings (regardless of how
many `op:` occurrences it has), and no earlier entry passes that same
test. -/
theorem findPatch_characterization (p : String) (doc : List PatchEntry)
    (i : Nat) (c : String) :
    findPatch p doc = some (i, c) ↔
      ((∃ e, doc[i]? = some e ∧ entryContent e = some c ∧
          contentMatch c p = true) ∧
        ∀ j, j < i → ∀ e, doc[j]? = some e → entryMatch p e = false) := by
  induction doc generalizing i with
  | nil => simp [findPatch]
  | cons e rest ih =>
    have hsplit : ∀ k : Nat,
        ((∀ j, j < k + 1 → ∀ e', (e :: rest)[j]? = some e' →
            entryMatch p e' = false) ↔
          (entryMatch p e = false ∧
            ∀ j, j < k → ∀ e', rest[j]? = some e' →
              entryMatch p e' = false)) := by
      intro k
      constructor
      · intro h
        refine ⟨h 0 (Nat.succ_pos k) e (by simp), ?_⟩
        intro j hj e' he'
        exact h (j + 1) (Nat.succ_lt_succ hj) e' (by simpa using he')
      · rintro ⟨h0, hrest⟩ j hj e' he'
        cases j with
        | zero =>
          have : e' = e := by simpa using he'.symm
          rw [this]
          exact h0
        | succ j' =>
          exact hrest j' (Nat.lt_of_succ_lt_succ hj) e' (by simpa using he')
    rw [findPatch]
    cases hec : entryContent e with
    | some c0 =>
      simp only []
      by_cases hm : contentMatch c0 p
      · rw [if_pos hm]
        cases i with
        | zero =>
          constructor
          · intro h
            have hc : c0 = c := congrArg Prod.snd (Option.some_inj.mp h)
            subst hc
            exact ⟨⟨e, by simp, hec, hm⟩,
              fun j hj => absurd hj (Nat.not_lt_zero j)⟩
          · rintro ⟨⟨e', he', hc', hm'⟩, -⟩
            have he : e' = e := by simpa using he'.symm
            rw [he, hec] at hc'
            rw [Option.some_inj.mp hc']
        | succ k =>
          constructor
          · intro h
            cases h
          · rintro ⟨-, hall⟩
            have h0 : entryMatch p e = false :=
              ((hsplit k).mp hall).1
            simp [entryMatch, hec, hm] at h0
      · rw [if_neg hm]
        have hemf : entryMatch p e = false :=
          entryMatch_false_of_content p e c0 hec (by simpa using hm)
        rw [findPatch_shift_iff]
        cases i with
        | zero =>
          constructor
          · rintro ⟨k, hk, -⟩
            cases hk
          · rintro ⟨⟨e', he', hc', hm'⟩, -⟩
            have : e' = e := by simpa using he'.symm
            rw [this] at hc'
            rw [hec] at hc'
            rw [Option.some_inj.mp hc'] at hm
            exact absurd hm' hm
        | succ k =>
          constructor
          · rintro ⟨k', hk', hfind⟩
            have hkk : k' = k := by omega
            rw [hkk] at hfind
            rcases (ih k).mp hfind with ⟨hex, hall⟩
            refine ⟨?_, (hsplit k).mpr ⟨hemf, hall⟩⟩
            rcases hex with ⟨e', he', hc', hm'⟩
            exact ⟨e', by simpa using he', hc', hm'⟩
          · rintro ⟨⟨e', he', hc', hm'⟩, hall⟩
            refine ⟨k, rfl, (ih k).mpr ⟨⟨e', by simpa using he', hc', hm'⟩, ?_⟩⟩
            exact ((hsplit k).mp hall).2
    | none =>
      simp only []
      have hemf : entryMatch p e = false := by
        rw [entryMatch, hec]
      rw [findPatch_shift_iff]
      cases i with
      | zero =>
        constructor
        · rintro ⟨k, hk, -⟩
          cases hk
        · rintro ⟨⟨e', he', hc', hm'⟩, -⟩
          have : e' = e := by simpa using he'.symm
          rw [this] at hc'
          rw [hec] at hc'
          cases hc'
      | succ k =>
        constructor
        · rintro ⟨k', hk', hfind⟩
          have hkk : k' = k := by omega
          rw [hkk] at hfind
          rcases (ih k).mp hfind with ⟨hex, hall⟩
          refine ⟨?_, (hsplit k).mpr ⟨hemf, hall⟩⟩
          rcases hex with ⟨e', he', hc', hm'⟩
          exact ⟨e', by simpa using he', hc', hm'⟩
        · rintro ⟨⟨e', he', hc', hm'⟩, hall⟩
          refine ⟨k, rfl, (ih k).mpr ⟨⟨e', by simpa using he', hc', hm'⟩, ?_⟩⟩
          exact ((hsplit k).mp hall).2

/-! ## Capture starts only at the literal-block marker -/

theorem parseLoop_no_marker (current : Mapping) (lines : List String)
    (h : ∀ l ∈ lines, pyStrip (pyRstrip l) ≠ "value: |") :
    parseLoop false current lines = current := by
  induction lines with
  | nil => rfl
  | cons line rest ih =>
    have h0 : pyStrip (pyRstrip line) ≠ "value: |" :=
      h line (List.mem_cons_self line rest)
    have hb : (pyStrip (pyRstrip line) == "value: |") = false :=
      beq_eq_false_iff_ne.mpr h0
    have ih' := ih (fun l hl => h l (List.mem_cons_of_mem line hl))
    simpa [parseLoop, hb] using ih'

/-- C9 (amended): decoding captures pair lines only after a line whose
stripped content is exactly `value: |` (the marker with the literal-block
indicator); a fragment with no such line — in particular one whose
`value:` line lacks the indicator — decodes to the empty mapping. -/
theorem parse_no_marker_empty (content p : String)
    (h : ∀ l ∈ pySplitlines content, pyStrip (pyRstrip l) ≠ "value: |") :
    parse_existing_mappings content p = [] :=
  parseLoop_no_marker [] (pySplitlines content) h

/-- Witness for the amended C9 theorem on a concrete fragment whose
`value:` line has no literal-block indicator. -/
theorem parse_no_marker_empty_witness :
    parse_existing_mappings
      "- op: add\n  path: /x\n  value:\n    30085: 8080" "/x" = [] :=
  parse_no_marker_empty _ _ (by decide)

/-! ## The exclusive policy rejects key collisions -/

/-- C1 (spec-modelled): when the located nodeport entry decodes to a
mapping whose keys intersect the new pairs' keys, the exclusive-policy
merge fails with a `ConflictError` carrying exactly the colliding keys
with their existing values, and no updated document is produced — the
input document is left unchanged. -/
theorem exclusive_conflict_rejects (doc : List PatchEntry)
    (ic : Nat × String) (new : Mapping)
    (hfind : findPatch nodeportPath doc = some ic)
    (hcoll : ∃ q ∈ parse_existing_mappings ic.2 nodeportPath,
      (new.lookup q.1).isSome = true) :
    mergeDocExclusive doc nodeportPath new =
      .error ⟨(parse_existing_mappings ic.2 nodeportPath).filter
        (fun q => (new.lookup q.1).isSome)⟩ ∧
    ∀ k v, (k, v) ∈ (parse_existing_mappings ic.2 nodeportPath).filter
        (fun q => (new.lookup q.1).isSome) ↔
      ((k, v) ∈ parse_existing_mappings ic.2 nodeportPath ∧
        (new.lookup k).isSome = true) := by
  obtain ⟨q, hq, hqs⟩ := hcoll
  have hmem : q ∈ (parse_existing_mappings ic.2 nodeportPath).filter
      (fun q => (new.lookup q.1).isSome) := List.mem_filter.mpr ⟨hq, hqs⟩
  have hne : ((parse_existing_mappings ic.2 nodeportPath).filter
      (fun q => (new.lookup q.1).isSome)).isEmpty = false := by
    cases hl : (parse_existing_mappings ic.2 nodeportPath).filter
        (fun q => (new.lookup q.1).isSome) with
    | nil =>
      rw [hl] at hmem
      cases hmem
    | cons a l => rfl
  constructor
  · rw [mergeDocExclusive, hfind]
    simp only [mergeExclusive, hne, Bool.false_eq_true, if_false]
  · intro k v
    rw [List.mem_filter]

/-- Witness for the C1 theorem at the Scenario-C document (whose entry
decodes, under the source decoder, to the single pair `8080 → ""`) and a
new pair colliding on that key. -/
theorem exclusive_conflict_rejects_witness :
    mergeDocExclusive
        [.mapping [("patch",
          "- op: add\n  path: /spec/values/controller/service/nodePorts/tcp\n  value: |\n    30085: 8080")]]
        nodeportPath [("8080", "9090")] =
      .error ⟨[("8080", "")]⟩ :=
  (exclusive_conflict_rejects
    [.mapping [("patch",
      "- op: add\n  path: /spec/values/controller/service/nodePorts/tcp\n  value: |\n    30085: 8080")]]
    (0, "- op: add\n  path: /spec/values/controller/service/nodePorts/tcp\n  value: |\n    30085: 8080")
    [("8080", "9090")] (by decide) (by decide)).1

end Transit
